import Mathlib

/-!
Verification of the Network Ping-Pong estimate extraction (src/main.c).

A shallow embedding of the measurement/estimation core of `main.c`.
C `double` values (microsecond timings, bandwidths) are modelled as exact
rationals `ℚ`; C `int` message sizes are modelled as `Nat` (they are always
positive powers of two in the program, and `msg_size / 2` is exact integer
division in both worlds). The per-size work of rank 0 (lines 183-206 of
`main.c`) is a fold of `extractStep` over the ordered list of per-size
aggregates, starting from the initial state of lines 93-97.
-/

namespace PingPong

/-- Constant `MIN_MSG_SIZE` from main.c line 19. -/
def MIN_MSG_SIZE : Nat := 1

/-- Constant `MAX_MSG_SIZE` from main.c line 20: `1 << 20`. -/
def MAX_MSG_SIZE : Nat := 2 ^ 20

/-- Constant `NUM_ITERATIONS` from main.c line 21. -/
def NUM_ITERATIONS : Nat := 100

/-- Constant `WARMUP_ITERATIONS` from main.c line 22. -/
def WARMUP_ITERATIONS : Nat := 10

/-- The sequence of message sizes visited by the sweep loop of main.c line
100: `for (int msg_size = MIN_MSG_SIZE; msg_size <= MAX_MSG_SIZE; msg_size *= 2)`.
The loop is embedded with a fuel parameter; fuel 25 is more than the 21
iterations the loop performs, so the embedding is exact. -/
def sweepFrom : Nat → Nat → List Nat
  | 0, _ => []
  | fuel + 1, m => if m ≤ MAX_MSG_SIZE then m :: sweepFrom fuel (2 * m) else []

/-- All message sizes traversed by the sweep, in program order. -/
def sweepSizes : List Nat := sweepFrom 25 MIN_MSG_SIZE

/-- One per-size aggregate record as computed at main.c lines 159-162
(the averages over the timed iterations), in increasing-size order. -/
structure SizeAggregate where
  message_size : Nat
  avg_send_us : ℚ
  avg_recv_us : ℚ
  avg_rtt_us : ℚ
deriving DecidableEq

/-- Bandwidth computation of main.c lines 164-170:
`bandwidth_mbps = (avg_rtt > 0) ? (2.0 * msg_size) / avg_rtt : 0.0`. -/
def bandwidth_mbps (msg_size : Nat) (avg_rtt : ℚ) : ℚ :=
  if 0 < avg_rtt then 2 * (msg_size : ℚ) / avg_rtt else 0

/-- The mutable estimation state of main.c lines 93-97. -/
structure ExtractState where
  min_rtt : ℚ
  max_bandwidth : ℚ
  buffer_size_estimate : Nat
  prev_send_time : ℚ
  buffer_detected : Bool
deriving DecidableEq

/-- Initial values of main.c lines 93-97: `min_rtt = 1e9`, `max_bandwidth = 0`,
`buffer_size_estimate = 0`, `prev_send_time = 0`, `buffer_detected = 0`. -/
def initState : ExtractState :=
  { min_rtt := 10 ^ 9
    max_bandwidth := 0
    buffer_size_estimate := 0
    prev_send_time := 0
    buffer_detected := false }

/-- The inner guard of the jump detector, main.c lines 197-200: the outer
`prev_send_time > 0` test combined with `avg_send > prev_send_time * 1.5`
and `msg_size >= 1024` (the C literal `1.5` is exactly `3/2`). -/
def jumpCond (prev : ℚ) (a : SizeAggregate) : Prop :=
  0 < prev ∧ prev * (3 / 2) < a.avg_send_us ∧ 1024 ≤ a.message_size

instance (prev : ℚ) (a : SizeAggregate) : Decidable (jumpCond prev a) :=
  inferInstanceAs (Decidable (0 < prev ∧ prev * (3 / 2) < a.avg_send_us ∧ 1024 ≤ a.message_size))

/-- The `min_rtt` update of main.c lines 183-187:
`if (msg_size <= 64 && avg_rtt < min_rtt) min_rtt = avg_rtt;`. -/
def minUpd (m : ℚ) (a : SizeAggregate) : ℚ :=
  if a.message_size ≤ 64 ∧ a.avg_rtt_us < m then a.avg_rtt_us else m

/-- One pass of rank 0's per-size bookkeeping, main.c lines 183-206:
the `min_rtt` update, the `max_bandwidth` update, the latched buffer-size
detector (`!buffer_detected && prev_send_time > 0` and the 1.5x jump test
with the 1024-byte floor, recording `msg_size / 2`), and the unconditional
`prev_send_time = avg_send` at line 206. -/
def extractStep (s : ExtractState) (a : SizeAggregate) : ExtractState :=
  { min_rtt := minUpd s.min_rtt a
    max_bandwidth :=
      if s.max_bandwidth < bandwidth_mbps a.message_size a.avg_rtt_us
      then bandwidth_mbps a.message_size a.avg_rtt_us else s.max_bandwidth
    buffer_size_estimate :=
      if s.buffer_detected = false ∧ jumpCond s.prev_send_time a
      then a.message_size / 2 else s.buffer_size_estimate
    buffer_detected :=
      if s.buffer_detected = false ∧ jumpCond s.prev_send_time a
      then true else s.buffer_detected
    prev_send_time := a.avg_send_us }

/-- Folding rank 0's per-size bookkeeping over the whole ordered sequence of
per-size aggregates, from the initial state of lines 93-97. -/
def runExtract (l : List SizeAggregate) : ExtractState :=
  l.foldl extractStep initState

/-- Derived estimate `latency_estimate = min_rtt / 2.0` from main.c line 217. -/
def latency_estimate (l : List SizeAggregate) : ℚ :=
  (runExtract l).min_rtt / 2

/-- The two distinct buffer-size outcomes printed at main.c lines 224-231 and
238-245: a detected numeric estimate, or the `"> 1MB (no blocking seen)"`
outcome. -/
inductive BufferReport where
  | detected (bytes : Nat)
  | exceedsMax
deriving DecidableEq

/-- Which of the two outcomes main.c reports (lines 224-231): the numeric
`buffer_size_estimate` when `buffer_detected` is set, else the distinct
"exceeds max swept size" outcome. -/
def bufferReport (s : ExtractState) : BufferReport :=
  if s.buffer_detected then .detected s.buffer_size_estimate else .exceedsMax

/-- The three timestamps taken by rank 0 in one timed round, main.c lines
135-139: `t_start` before `MPI_Send`, `t_after_send` after it, and
`t_after_recv` after `MPI_Recv`. -/
structure RoundStamps where
  t_start : ℚ
  t_after_send : ℚ
  t_after_recv : ℚ
deriving DecidableEq

/-- Accumulated `total_send_time` of main.c line 141 over the timed rounds. -/
def totalSendTime (rs : List RoundStamps) : ℚ :=
  (rs.map (fun r => r.t_after_send - r.t_start)).sum

/-- Accumulated `total_recv_time` of main.c line 142 over the timed rounds. -/
def totalRecvTime (rs : List RoundStamps) : ℚ :=
  (rs.map (fun r => r.t_after_recv - r.t_after_send)).sum

/-- Accumulated `total_rtt` of main.c line 143 over the timed rounds. -/
def totalRttTime (rs : List RoundStamps) : ℚ :=
  (rs.map (fun r => r.t_after_recv - r.t_start)).sum

/-- Average `avg_send = total_send_time / NUM_ITERATIONS`, main.c line 160. -/
def avgSend (rs : List RoundStamps) : ℚ := totalSendTime rs / (NUM_ITERATIONS : ℚ)

/-- Average `avg_recv = total_recv_time / NUM_ITERATIONS`, main.c line 161. -/
def avgRecv (rs : List RoundStamps) : ℚ := totalRecvTime rs / (NUM_ITERATIONS : ℚ)

/-- Average `avg_rtt = total_rtt / NUM_ITERATIONS`, main.c line 162. -/
def avgRtt (rs : List RoundStamps) : ℚ := totalRttTime rs / (NUM_ITERATIONS : ℚ)

/-- The per-size aggregate assembled on the initiator (rank 0) side from its
round timestamps, main.c lines 159-162. -/
def initiatorAggregate (msg_size : Nat) (rs : List RoundStamps) : SizeAggregate :=
  ⟨msg_size, avgSend rs, avgRecv rs, avgRtt rs⟩

/-- State of the buffer-threshold scan exactly as claim C1's wording has it:
no positivity requirement on the previous send time. -/
structure ClaimedScanState where
  detected : Bool
  estimate : Nat
  prev : ℚ
deriving DecidableEq

/-- Modelled from the claim's words (not from main.c): detection fires at the
first size where `avg_send_us` exceeds 1.5 times the previous size's
`avg_send_us` and `message_size >= 1024`, records `message_size / 2`, and
latches. It omits the `prev_send_time > 0` guard that main.c line 197 has. -/
def claimedStep (s : ClaimedScanState) (a : SizeAggregate) : ClaimedScanState :=
  if s.detected = false ∧ s.prev * (3 / 2) < a.avg_send_us ∧ 1024 ≤ a.message_size
  then ⟨true, a.message_size / 2, a.avg_send_us⟩
  else ⟨s.detected, s.estimate, a.avg_send_us⟩

/-- Scan of `claimedStep` over the aggregate sequence, from a zero previous
send time and no detection. -/
def runClaimedScan (l : List SizeAggregate) : ClaimedScanState :=
  l.foldl claimedStep ⟨false, 0, 0⟩

/-- Modelled from the spec's words (section 4.4 EstimateExtractor, a behaviour
main.c does not implement): the latency estimate is undefined (`none`) when no
aggregate has `message_size ≤ 64`, otherwise half the minimum small-message
`avg_rtt_us`. -/
def latencySpec (l : List SizeAggregate) : Option ℚ :=
  match ((l.filter (fun a => decide (a.message_size ≤ 64))).map (fun a => a.avg_rtt_us)).min? with
  | none => none
  | some m => some (m / 2)

/-- The synthetic aggregate sequence of the spec's section 8:
avg_send_us = [10,10,10,50,55,60] at sizes [128,256,512,1024,2048,4096]. -/
def exampleAggs : List SizeAggregate :=
  [⟨128, 10, 0, 0⟩, ⟨256, 10, 0, 0⟩, ⟨512, 10, 0, 0⟩,
   ⟨1024, 50, 0, 0⟩, ⟨2048, 55, 0, 0⟩, ⟨4096, 60, 0, 0⟩]

/-- Line 206 of main.c: the previous send time after a pass is always the
processed aggregate's average send time. -/
lemma extractStep_prev_send (s : ExtractState) (a : SizeAggregate) :
    (extractStep s a).prev_send_time = a.avg_send_us := rfl

/-- When the detector's full guard holds, a pass sets the flag and records
half the current message size (main.c lines 202-203). -/
lemma extractStep_fire (s : ExtractState) (a : SizeAggregate)
    (h1 : s.buffer_detected = false) (h2 : jumpCond s.prev_send_time a) :
    (extractStep s a).buffer_detected = true ∧
    (extractStep s a).buffer_size_estimate = a.message_size / 2 := by
  constructor
  · show (if s.buffer_detected = false ∧ jumpCond s.prev_send_time a
      then true else s.buffer_detected) = true
    rw [if_pos ⟨h1, h2⟩]
  · show (if s.buffer_detected = false ∧ jumpCond s.prev_send_time a
      then a.message_size / 2 else s.buffer_size_estimate) = a.message_size / 2
    rw [if_pos ⟨h1, h2⟩]

/-- When the detector's guard fails, a pass leaves flag and estimate alone. -/
lemma extractStep_skip (s : ExtractState) (a : SizeAggregate)
    (h : ¬(s.buffer_detected = false ∧ jumpCond s.prev_send_time a)) :
    (extractStep s a).buffer_detected = s.buffer_detected ∧
    (extractStep s a).buffer_size_estimate = s.buffer_size_estimate := by
  constructor
  · show (if s.buffer_detected = false ∧ jumpCond s.prev_send_time a
      then true else s.buffer_detected) = s.buffer_detected
    rw [if_neg h]
  · show (if s.buffer_detected = false ∧ jumpCond s.prev_send_time a
      then a.message_size / 2 else s.buffer_size_estimate) = s.buffer_size_estimate
    rw [if_neg h]

/-- Once `buffer_detected` is set, the rest of the sweep changes neither the
flag nor the estimate (the `!buffer_detected` test at main.c line 197). -/
lemma scan_latched (l : List SizeAggregate) : ∀ s : ExtractState,
    s.buffer_detected = true →
    (l.foldl extractStep s).buffer_detected = true ∧
    (l.foldl extractStep s).buffer_size_estimate = s.buffer_size_estimate := by
  induction l with
  | nil => intro s h; exact ⟨h, rfl⟩
  | cons a t ih =>
    intro s h
    have hskip := extractStep_skip s a (fun hc => by rw [h] at hc; exact Bool.noConfusion hc.1)
    have ihx := ih (extractStep s a) (hskip.1.trans h)
    simp only [List.foldl_cons]
    exact ⟨ihx.1, ihx.2.trans hskip.2⟩

/-- If the guard never holds along the remaining aggregates (first against the
incoming previous send time, then between consecutive aggregates), the scan
never sets the flag and never touches the estimate. -/
lemma scan_no_fire (l : List SizeAggregate) : ∀ s : ExtractState,
    s.buffer_detected = false →
    (∀ a ∈ l.head?, ¬ jumpCond s.prev_send_time a) →
    l.Chain' (fun a b => ¬ jumpCond a.avg_send_us b) →
    (l.foldl extractStep s).buffer_detected = false ∧
    (l.foldl extractStep s).buffer_size_estimate = s.buffer_size_estimate := by
  induction l with
  | nil => intro s h _ _; exact ⟨h, rfl⟩
  | cons a t ih =>
    intro s h hhead hchain
    have hnj : ¬ jumpCond s.prev_send_time a := hhead a rfl
    have hskip := extractStep_skip s a (fun hc => hnj hc.2)
    rw [List.chain'_cons'] at hchain
    have ihx := ih (extractStep s a) (hskip.1.trans h)
      (by rw [extractStep_prev_send]; exact hchain.1) hchain.2
    simp only [List.foldl_cons]
    exact ⟨ihx.1, ihx.2.trans hskip.2⟩

/-- The `min_rtt` component of the fold only depends on the running `min_rtt`
value, through `minUpd`. -/
lemma foldl_min_rtt (l : List SizeAggregate) : ∀ s : ExtractState,
    (l.foldl extractStep s).min_rtt = l.foldl minUpd s.min_rtt := by
  induction l with
  | nil => intro s; rfl
  | cons a t ih =>
    intro s
    simp only [List.foldl_cons]
    exact ih (extractStep s a)

/-- The `min_rtt` reached by the whole run, as a fold of `minUpd` from the
sentinel `1e9` of main.c line 93. -/
lemma runExtract_min_rtt (l : List SizeAggregate) :
    (runExtract l).min_rtt = l.foldl minUpd (10 ^ 9) :=
  foldl_min_rtt l initState

/-- A `min_rtt` pass never increases the running value. -/
lemma minUpd_le (m : ℚ) (a : SizeAggregate) : minUpd m a ≤ m := by
  by_cases h : a.message_size ≤ 64 ∧ a.avg_rtt_us < m
  · rw [minUpd, if_pos h]; exact h.2.le
  · rw [minUpd, if_neg h]

/-- After passing a small-message aggregate, the running value is at most its
round-trip time. -/
lemma minUpd_le_rtt (m : ℚ) (a : SizeAggregate) (h : a.message_size ≤ 64) :
    minUpd m a ≤ a.avg_rtt_us := by
  by_cases h2 : a.avg_rtt_us < m
  · rw [minUpd, if_pos ⟨h, h2⟩]
  · rw [minUpd, if_neg (fun hc => h2 hc.2)]
    exact not_lt.mp h2

/-- The fold of `minUpd` never rises above its start value. -/
lemma minFold_le_init (l : List SizeAggregate) : ∀ m : ℚ, l.foldl minUpd m ≤ m := by
  induction l with
  | nil => intro m; exact le_refl m
  | cons a t ih =>
    intro m
    simp only [List.foldl_cons]
    exact le_trans (ih (minUpd m a)) (minUpd_le m a)

/-- The fold of `minUpd` is bounded by every small-message round-trip time it
passes over. -/
lemma minFold_le_elem (l : List SizeAggregate) : ∀ (m : ℚ) (a : SizeAggregate),
    a ∈ l → a.message_size ≤ 64 → l.foldl minUpd m ≤ a.avg_rtt_us := by
  induction l with
  | nil => intro m a ha _; exact absurd ha (List.not_mem_nil a)
  | cons b t ih =>
    intro m a ha hsmall
    simp only [List.foldl_cons]
    rcases List.mem_cons.mp ha with h | h
    · subst h
      exact le_trans (minFold_le_init t (minUpd m a)) (minUpd_le_rtt m a hsmall)
    · exact ih (minUpd m b) a h hsmall

/-- The fold of `minUpd` is either still its start value or the round-trip
time of some small-message aggregate of the list. -/
lemma minFold_init_or_elem (l : List SizeAggregate) : ∀ m : ℚ,
    l.foldl minUpd m = m ∨
    ∃ a ∈ l, a.message_size ≤ 64 ∧ l.foldl minUpd m = a.avg_rtt_us := by
  induction l with
  | nil => intro m; exact Or.inl rfl
  | cons b t ih =>
    intro m
    simp only [List.foldl_cons]
    by_cases h : b.message_size ≤ 64 ∧ b.avg_rtt_us < m
    · have hupd : minUpd m b = b.avg_rtt_us := by rw [minUpd, if_pos h]
      rcases ih (minUpd m b) with h1 | ⟨a, ha, hs, he⟩
      · exact Or.inr ⟨b, List.mem_cons_self b t, h.1, h1.trans hupd⟩
      · exact Or.inr ⟨a, List.mem_cons_of_mem b ha, hs, he⟩
    · have hupd : minUpd m b = m := by rw [minUpd, if_neg h]
      rw [hupd]
      rcases ih m with h1 | ⟨a, ha, hs, he⟩
      · exact Or.inl h1
      · exact Or.inr ⟨a, List.mem_cons_of_mem b ha, hs, he⟩

/-- If no aggregate of the list is a small message, the fold of `minUpd` keeps
its start value. -/
lemma minFold_no_small (l : List SizeAggregate) : ∀ m : ℚ,
    (∀ a ∈ l, ¬ a.message_size ≤ 64) → l.foldl minUpd m = m := by
  induction l with
  | nil => intro m _; rfl
  | cons b t ih =>
    intro m h
    simp only [List.foldl_cons]
    have hupd : minUpd m b = m := by
      rw [minUpd, if_neg (fun hc => h b (List.mem_cons_self b t) hc.1)]
    rw [hupd]
    exact ih m (fun a ha => h a (List.mem_cons_of_mem b ha))

/-- Per-round decomposition at main.c lines 141-143: the RTT total is the sum
of the send total and the receive total. -/
lemma totalRtt_split (rs : List RoundStamps) :
    totalRttTime rs = totalSendTime rs + totalRecvTime rs := by
  induction rs with
  | nil => simp [totalRttTime, totalSendTime, totalRecvTime]
  | cons r t ih =>
    simp only [totalRttTime, totalSendTime, totalRecvTime, List.map_cons,
      List.sum_cons] at ih ⊢
    rw [ih]
    ring

/-- C4: for every swept size, `bandwidth_mbps` equals `(2 * message_size) /
avg_rtt_us` when `avg_rtt_us > 0` and `0` otherwise; with `message_size ≥ 1`
and `avg_rtt_us ≥ 0` it is always non-negative and vanishes exactly when
`avg_rtt_us = 0`. -/
theorem bandwidth_definition (size : Nat) (rtt : ℚ) (h1 : 1 ≤ size) (h2 : 0 ≤ rtt) :
    (0 < rtt → bandwidth_mbps size rtt = 2 * (size : ℚ) / rtt) ∧
    (rtt = 0 → bandwidth_mbps size rtt = 0) ∧
    0 ≤ bandwidth_mbps size rtt ∧
    (bandwidth_mbps size rtt = 0 ↔ rtt = 0) := by
  have hsz : (0:ℚ) < (size : ℚ) := by exact_mod_cast h1
  by_cases h : 0 < rtt
  · rw [bandwidth_mbps, if_pos h]
    refine ⟨fun _ => rfl, fun h0 => absurd h0 (ne_of_gt h), div_nonneg (by positivity) h2, ?_⟩
    constructor
    · intro he
      rcases div_eq_zero_iff.mp he with hnum | hden
      · exact absurd hnum (ne_of_gt (by positivity))
      · exact absurd hden (ne_of_gt h)
    · intro h0
      exact absurd h0 (ne_of_gt h)
  · have h0 : rtt = 0 := le_antisymm (not_lt.mp h) h2
    rw [bandwidth_mbps, if_neg h]
    exact ⟨fun hc => absurd hc h, fun _ => rfl, le_refl 0, ⟨fun _ => h0, fun _ => rfl⟩⟩

/-- Witness for C4 at `size = 2`, `rtt = 4`. -/
theorem bandwidth_definition_w :
    (0 < (4:ℚ) → bandwidth_mbps 2 4 = 2 * ((2 : Nat) : ℚ) / 4) ∧
    ((4:ℚ) = 0 → bandwidth_mbps 2 4 = 0) ∧
    0 ≤ bandwidth_mbps 2 4 ∧
    (bandwidth_mbps 2 4 = 0 ↔ (4:ℚ) = 0) :=
  bandwidth_definition 2 4 (by norm_num) (by norm_num)

/-- C5: the traversed message sizes are exactly the powers of two from 1 up to
and including 1048576, 21 points, strictly increasing in traversal order and
therefore each visited exactly once. -/
theorem sweep_sequence_deterministic :
    sweepSizes = (List.range 21).map (fun k => 2 ^ k) ∧
    sweepSizes.length = 21 ∧
    sweepSizes.head? = some MIN_MSG_SIZE ∧
    sweepSizes.getLast? = some MAX_MSG_SIZE ∧
    List.Pairwise (fun a b => a < b) sweepSizes ∧
    sweepSizes.Nodup :=
  ⟨by decide, by decide, by decide, by decide, by decide, by decide⟩

/-- C7: the initiator-side per-size aggregate satisfies `avg_rtt_us ≥
avg_send_us` and `avg_rtt_us ≥ avg_recv_us`, given that every individual phase
duration (each timestamp difference of main.c lines 135-143) is
non-negative. -/
theorem initiator_rtt_dominates (msg_size : Nat) (rs : List RoundStamps)
    (h : ∀ r ∈ rs, r.t_start ≤ r.t_after_send ∧ r.t_after_send ≤ r.t_after_recv) :
    (initiatorAggregate msg_size rs).avg_send_us ≤ (initiatorAggregate msg_size rs).avg_rtt_us ∧
    (initiatorAggregate msg_size rs).avg_recv_us ≤ (initiatorAggregate msg_size rs).avg_rtt_us := by
  have hs : 0 ≤ totalSendTime rs := by
    apply List.sum_nonneg
    intro x hx
    obtain ⟨r, hr, rfl⟩ := List.mem_map.mp hx
    have hd := (h r hr).1
    linarith
  have hrv : 0 ≤ totalRecvTime rs := by
    apply List.sum_nonneg
    intro x hx
    obtain ⟨r, hr, rfl⟩ := List.mem_map.mp hx
    have hd := (h r hr).2
    linarith
  have hN : (0:ℚ) ≤ (NUM_ITERATIONS : ℚ) := Nat.cast_nonneg _
  constructor
  · show avgSend rs ≤ avgRtt rs
    rw [avgSend, avgRtt, totalRtt_split, add_div]
    exact le_add_of_nonneg_right (div_nonneg hrv hN)
  · show avgRecv rs ≤ avgRtt rs
    rw [avgRecv, avgRtt, totalRtt_split, add_div]
    exact le_add_of_nonneg_left (div_nonneg hs hN)

/-- Witness for C7 on one round with timestamps 0, 2, 5. -/
theorem initiator_rtt_dominates_w :
    (∀ r ∈ ([⟨0, 2, 5⟩] : List RoundStamps),
      r.t_start ≤ r.t_after_send ∧ r.t_after_send ≤ r.t_after_recv) ∧
    (initiatorAggregate 1 [⟨0, 2, 5⟩]).avg_send_us ≤ (initiatorAggregate 1 [⟨0, 2, 5⟩]).avg_rtt_us ∧
    (initiatorAggregate 1 [⟨0, 2, 5⟩]).avg_recv_us ≤ (initiatorAggregate 1 [⟨0, 2, 5⟩]).avg_rtt_us :=
  ⟨by decide, initiator_rtt_dominates 1 [⟨0, 2, 5⟩] (by decide)⟩

/-- C9: detection needs a strictly positive previous average send time
(main.c line 197), so the detector can never fire on the first swept size
(the initial `prev_send_time` is 0), and a previous average send time of
exactly 0 suppresses detection at the following size no matter how large its
average send time is. -/
theorem jump_detector_positive_prev_guard :
    (∀ (s : ExtractState) (a : SizeAggregate), ¬ 0 < s.prev_send_time →
      (extractStep s a).buffer_detected = s.buffer_detected ∧
      (extractStep s a).buffer_size_estimate = s.buffer_size_estimate) ∧
    (∀ a : SizeAggregate, (extractStep initState a).buffer_detected = false) ∧
    (∀ (s : ExtractState) (a b : SizeAggregate), a.avg_send_us = 0 →
      (extractStep (extractStep s a) b).buffer_detected = (extractStep s a).buffer_detected ∧
      (extractStep (extractStep s a) b).buffer_size_estimate
        = (extractStep s a).buffer_size_estimate) := by
  have key : ∀ (s : ExtractState) (a : SizeAggregate), ¬ 0 < s.prev_send_time →
      (extractStep s a).buffer_detected = s.buffer_detected ∧
      (extractStep s a).buffer_size_estimate = s.buffer_size_estimate :=
    fun s a h => extractStep_skip s a (fun hc => h hc.2.1)
  refine ⟨key, fun a => ?_, fun s a b h => ?_⟩
  · exact (key initState a (lt_irrefl 0)).1
  · exact key (extractStep s a) b (by rw [extractStep_prev_send, h]; exact lt_irrefl 0)

/-- Witness for C9: concrete states and aggregates exercising all three
conjuncts (a zero previous send time suppresses a huge jump at size 2048). -/
theorem jump_detector_positive_prev_guard_w :
    (¬ 0 < initState.prev_send_time) ∧
    ((extractStep initState ⟨2048, 100, 0, 0⟩).buffer_detected = initState.buffer_detected ∧
     (extractStep initState ⟨2048, 100, 0, 0⟩).buffer_size_estimate
       = initState.buffer_size_estimate) ∧
    (extractStep initState ⟨2048, 100, 0, 0⟩).buffer_detected = false ∧
    ((⟨1024, 0, 0, 0⟩ : SizeAggregate).avg_send_us = 0) ∧
    ((extractStep (extractStep initState ⟨1024, 0, 0, 0⟩) ⟨2048, 1000000, 0, 0⟩).buffer_detected
       = (extractStep initState ⟨1024, 0, 0, 0⟩).buffer_detected ∧
     (extractStep (extractStep initState ⟨1024, 0, 0, 0⟩) ⟨2048, 1000000, 0, 0⟩).buffer_size_estimate
       = (extractStep initState ⟨1024, 0, 0, 0⟩).buffer_size_estimate) :=
  ⟨by norm_num [initState],
   jump_detector_positive_prev_guard.1 initState ⟨2048, 100, 0, 0⟩ (by norm_num [initState]),
   jump_detector_positive_prev_guard.2.1 ⟨2048, 100, 0, 0⟩,
   rfl,
   jump_detector_positive_prev_guard.2.2 initState ⟨1024, 0, 0, 0⟩ ⟨2048, 1000000, 0, 0⟩ rfl⟩

/-- Aggregates refuting claim C1 as stated: avg_send_us = [0, 10, 100] at
sizes [512, 1024, 2048]. -/
def cexC1 : List SizeAggregate := [⟨512, 0, 0, 0⟩, ⟨1024, 10, 0, 0⟩, ⟨2048, 100, 0, 0⟩]

/-- C1 (counterexample to the claim as stated): the first size where
`avg_send_us` exceeds 1.5 times the previous size's `avg_send_us` and
`message_size ≥ 1024` is 1024 (10 exceeds 1.5 times 0), so the claimed rule
latches 1024 / 2 = 512 there; main.c's scan instead skips it — line 197 also
requires `prev_send_time > 0` — and latches 1024 at size 2048. -/
theorem buffer_threshold_unguarded_rule_differs :
    (runClaimedScan cexC1).detected = true ∧
    (runClaimedScan cexC1).estimate = 512 ∧
    (runExtract cexC1).buffer_detected = true ∧
    (runExtract cexC1).buffer_size_estimate = 1024 := by
  refine ⟨?_, ?_, ?_, ?_⟩ <;>
    norm_num [runClaimedScan, runExtract, cexC1, claimedStep, extractStep, minUpd,
      jumpCond, initState, bandwidth_mbps]

/-- C1 (amended with the implicit guard of main.c line 197, cf. C9): at the
first aggregate `a` where the previous size's `avg_send_us` is strictly
positive, `avg_send_us` exceeds 1.5 times it and `message_size ≥ 1024` — i.e.
no earlier aggregate fired the guarded condition — the scan records
`a.message_size / 2` and latches, so the later aggregates `l₂` are ignored. -/
theorem buffer_threshold_first_guarded_jump (l₁ l₂ : List SizeAggregate) (a : SizeAggregate)
    (hnd : (runExtract l₁).buffer_detected = false)
    (hfire : jumpCond (runExtract l₁).prev_send_time a) :
    (runExtract (l₁ ++ a :: l₂)).buffer_detected = true ∧
    (runExtract (l₁ ++ a :: l₂)).buffer_size_estimate = a.message_size / 2 := by
  have hstep := extractStep_fire (runExtract l₁) a hnd hfire
  have hrun : runExtract (l₁ ++ a :: l₂)
      = l₂.foldl extractStep (extractStep (runExtract l₁) a) := by
    simp only [runExtract, List.foldl_append, List.foldl_cons]
  rw [hrun]
  have hl := scan_latched l₂ (extractStep (runExtract l₁) a) hstep.1
  exact ⟨hl.1, hl.2.trans hstep.2⟩

/-- Witness for C1 on the spec's synthetic sequence (sizes 128..4096,
avg_send_us = [10,10,10,50,55,60]): the jump fires first at size 1024 and the
reported threshold is 512. -/
theorem buffer_threshold_first_guarded_jump_w :
    (runExtract [⟨128, 10, 0, 0⟩, ⟨256, 10, 0, 0⟩, ⟨512, 10, 0, 0⟩]).buffer_detected = false ∧
    jumpCond (runExtract [⟨128, 10, 0, 0⟩, ⟨256, 10, 0, 0⟩,
      ⟨512, 10, 0, 0⟩]).prev_send_time ⟨1024, 50, 0, 0⟩ ∧
    (runExtract exampleAggs).buffer_detected = true ∧
    (runExtract exampleAggs).buffer_size_estimate = 512 := by
  have h1 : (runExtract [⟨128, 10, 0, 0⟩, ⟨256, 10, 0, 0⟩,
      ⟨512, 10, 0, 0⟩]).buffer_detected = false := by
    norm_num [runExtract, extractStep, minUpd, jumpCond, initState, bandwidth_mbps]
  have h2 : jumpCond (runExtract [⟨128, 10, 0, 0⟩, ⟨256, 10, 0, 0⟩,
      ⟨512, 10, 0, 0⟩]).prev_send_time ⟨1024, 50, 0, 0⟩ := by
    norm_num [runExtract, extractStep, minUpd, jumpCond, initState, bandwidth_mbps]
  have h3 := buffer_threshold_first_guarded_jump
    [⟨128, 10, 0, 0⟩, ⟨256, 10, 0, 0⟩, ⟨512, 10, 0, 0⟩]
    [⟨2048, 55, 0, 0⟩, ⟨4096, 60, 0, 0⟩] ⟨1024, 50, 0, 0⟩ h1 h2
  exact ⟨h1, h2, h3.1, h3.2⟩

/-- One aggregate above the 64-byte cutoff, refuting claim C2 as stated. -/
def cexC2 : List SizeAggregate := [⟨128, 0, 0, 10⟩]

/-- C2 (counterexample to the claim as stated): with no aggregate at or under
the 64-byte cutoff, the spec-worded extractor is undefined (`none`), but
main.c still reports a number — `min_rtt` stays at the 1e9 sentinel of line 93
and line 217 halves it to 500000000. -/
theorem latency_not_signalled_undefined :
    latencySpec cexC2 = none ∧ latency_estimate cexC2 = 500000000 := by
  constructor
  · rfl
  · norm_num [latency_estimate, runExtract, extractStep, minUpd, jumpCond,
      initState, bandwidth_mbps, cexC2]

/-- C2 (amended): if no aggregate is at or under the 64-byte cutoff, main.c
does not signal an undefined latency; it reports the numeric placeholder
500000000 (half the 1e9 sentinel), indistinguishable from a measurement. -/
theorem latency_placeholder_when_no_small (l : List SizeAggregate)
    (h : ∀ a ∈ l, ¬ a.message_size ≤ 64) :
    latency_estimate l = 500000000 := by
  rw [latency_estimate, runExtract_min_rtt, minFold_no_small l _ h]
  norm_num

/-- Witness for C2 (amended) on the one-aggregate sweep of size 128. -/
theorem latency_placeholder_when_no_small_w :
    (∀ a ∈ ([⟨128, 0, 0, 10⟩] : List SizeAggregate), ¬ a.message_size ≤ 64) ∧
    latency_estimate [⟨128, 0, 0, 10⟩] = 500000000 :=
  ⟨by decide, latency_placeholder_when_no_small [⟨128, 0, 0, 10⟩] (by decide)⟩

/-- One small aggregate whose round-trip time exceeds the sentinel, refuting
claim C3 as stated. -/
def cexC3 : List SizeAggregate := [⟨1, 0, 0, 2000000000⟩]

/-- C3 (counterexample to the claim as stated): the only small-message
aggregate has avg_rtt_us = 2e9, so the claimed formula gives 2e9 / 2 = 1e9;
but main.c's `min_rtt` starts at the 1e9 sentinel (line 93) and only moves on
a strictly smaller value (line 184), so it reports 1e9 / 2 = 500000000. -/
theorem latency_sentinel_caps_reported_min :
    latency_estimate cexC3 = 500000000 ∧
    latencySpec cexC3 = some 1000000000 ∧
    (500000000 : ℚ) ≠ 1000000000 := by
  refine ⟨?_, ?_, by norm_num⟩
  · norm_num [latency_estimate, runExtract, extractStep, minUpd, jumpCond,
      initState, bandwidth_mbps, cexC3]
  · norm_num [latencySpec, cexC3, List.min?]

/-- C3 (amended): when some aggregate at or under the 64-byte cutoff attains
the minimum small-message `avg_rtt_us` and that minimum is below the 1e9
sentinel of main.c line 93, the reported latency estimate is half that
minimum. -/
theorem latency_half_min_small_rtt (l : List SizeAggregate) (a₀ : SizeAggregate)
    (h₀ : a₀ ∈ l) (hsize : a₀.message_size ≤ 64) (hsent : a₀.avg_rtt_us < 10 ^ 9)
    (hmin : ∀ a ∈ l, a.message_size ≤ 64 → a₀.avg_rtt_us ≤ a.avg_rtt_us) :
    latency_estimate l = a₀.avg_rtt_us / 2 := by
  have hle : l.foldl minUpd (10 ^ 9) ≤ a₀.avg_rtt_us := minFold_le_elem l (10 ^ 9) a₀ h₀ hsize
  have heq : l.foldl minUpd (10 ^ 9) = a₀.avg_rtt_us := by
    rcases minFold_init_or_elem l (10 ^ 9) with h1 | ⟨b, hb, hbs, hbe⟩
    · rw [h1] at hle
      linarith
    · rw [hbe] at hle ⊢
      exact le_antisymm hle (hmin b hb hbs)
  rw [latency_estimate, runExtract_min_rtt, heq]

/-- Witness for C3 (amended) on the spec's example: avg_rtt_us = [100, 90, 95]
at sizes [1, 2, 4] gives latency 90 / 2 = 45. -/
theorem latency_half_min_small_rtt_w :
    latency_estimate [⟨1, 0, 0, 100⟩, ⟨2, 0, 0, 90⟩, ⟨4, 0, 0, 95⟩]
      = (⟨2, 0, 0, 90⟩ : SizeAggregate).avg_rtt_us / 2 ∧
    ((2 : Nat) ≤ 64) ∧ ((90 : ℚ) / 2 = 45) :=
  ⟨latency_half_min_small_rtt [⟨1, 0, 0, 100⟩, ⟨2, 0, 0, 90⟩, ⟨4, 0, 0, 95⟩]
      ⟨2, 0, 0, 90⟩ (by simp) (by norm_num) (by norm_num)
      (by intro a ha _; fin_cases ha <;> norm_num),
   by norm_num, by norm_num⟩

/-- C6: if the (guarded) 1.5x jump condition never fires across the sweep —
neither on the first aggregate (initial previous send time 0) nor between any
two consecutive aggregates — the report is the distinct "exceeds max swept
size" outcome, not a numeric estimate: in particular neither `detected 0` nor
`detected MAX_MSG_SIZE` nor any other `detected n`. -/
theorem no_jump_reports_exceeds_max (l : List SizeAggregate)
    (h : l.Chain' (fun a b => ¬ jumpCond a.avg_send_us b)) :
    bufferReport (runExtract l) = BufferReport.exceedsMax ∧
    ∀ n : Nat, bufferReport (runExtract l) ≠ BufferReport.detected n := by
  have hz : ∀ a ∈ List.head? l, ¬ jumpCond initState.prev_send_time a := by
    intro a _ hc
    exact absurd hc.1 (lt_irrefl 0)
  have hrun := scan_no_fire l initState rfl hz h
  have hd : (runExtract l).buffer_detected = false := hrun.1
  have hrep : bufferReport (runExtract l) = BufferReport.exceedsMax := by
    rw [bufferReport, hd]
    rfl
  refine ⟨hrep, fun n hn => ?_⟩
  rw [hrep] at hn
  exact BufferReport.noConfusion hn

/-- Witness for C6 on a two-aggregate sweep with no jump (send 10 then 12). -/
theorem no_jump_reports_exceeds_max_w :
    List.Chain' (fun a b => ¬ jumpCond a.avg_send_us b)
      [⟨1024, 10, 0, 0⟩, ⟨2048, 12, 0, 0⟩] ∧
    bufferReport (runExtract [⟨1024, 10, 0, 0⟩, ⟨2048, 12, 0, 0⟩])
      = BufferReport.exceedsMax ∧
    ∀ n : Nat, bufferReport (runExtract [⟨1024, 10, 0, 0⟩, ⟨2048, 12, 0, 0⟩])
      ≠ BufferReport.detected n := by
  have hch : List.Chain' (fun a b => ¬ jumpCond a.avg_send_us b)
      [⟨1024, 10, 0, 0⟩, ⟨2048, 12, 0, 0⟩] := by
    norm_num [List.chain'_cons, List.chain'_singleton, jumpCond]
  have h := no_jump_reports_exceeds_max _ hch
  exact ⟨hch, h.1, h.2⟩

/-- Aggregates refuting claim C8 as stated: a single pass never fires, but in
the duplicated sequence the seam (send 10 at the end, then send 100 at size
1024) fires. -/
def cexC8 : List SizeAggregate := [⟨1024, 100, 0, 0⟩, ⟨2048, 10, 0, 0⟩]

/-- C8 (counterexample to the claim as stated): one pass over `cexC8` reports
"exceeds max", but the pass over `cexC8 ++ cexC8` latches 512 at the seam, so
the two reports differ. -/
theorem duplicated_scan_differs :
    bufferReport (runExtract cexC8) = BufferReport.exceedsMax ∧
    bufferReport (runExtract (cexC8 ++ cexC8)) = BufferReport.detected 512 ∧
    bufferReport (runExtract (cexC8 ++ cexC8)) ≠ bufferReport (runExtract cexC8) := by
  have h1 : bufferReport (runExtract cexC8) = BufferReport.exceedsMax := by
    norm_num [bufferReport, runExtract, extractStep, minUpd, jumpCond, initState,
      bandwidth_mbps, cexC8]
  have h2 : bufferReport (runExtract (cexC8 ++ cexC8)) = BufferReport.detected 512 := by
    norm_num [bufferReport, runExtract, extractStep, minUpd, jumpCond, initState,
      bandwidth_mbps, cexC8]
  refine ⟨h1, h2, ?_⟩
  rw [h1, h2]
  decide

/-- C8 (amended): when the single pass over the aggregate sequence latches a
threshold, scanning the concatenation of the sequence with itself yields the
same report, because the latch fires at most once per run. -/
theorem duplicated_scan_same_when_latched (l : List SizeAggregate)
    (h : (runExtract l).buffer_detected = true) :
    bufferReport (runExtract (l ++ l)) = bufferReport (runExtract l) := by
  have hrun : runExtract (l ++ l) = l.foldl extractStep (runExtract l) := by
    simp only [runExtract, List.foldl_append]
  have hl := scan_latched l (runExtract l) h
  rw [hrun, bufferReport, bufferReport, hl.1, h, hl.2]

/-- Witness for C8 (amended) on the spec's synthetic sequence, which latches
512 in a single pass. -/
theorem duplicated_scan_same_when_latched_w :
    (runExtract exampleAggs).buffer_detected = true ∧
    bufferReport (runExtract (exampleAggs ++ exampleAggs))
      = bufferReport (runExtract exampleAggs) := by
  have h : (runExtract exampleAggs).buffer_detected = true := by
    norm_num [runExtract, extractStep, minUpd, jumpCond, initState, bandwidth_mbps,
      exampleAggs]
  exact ⟨h, duplicated_scan_same_when_latched exampleAggs h⟩

/-- The detection-state invariant of claim C10: a set flag comes with a
power-of-two estimate between 512 and 524288; a clear flag comes with
estimate 0. -/
def detectInvariant (s : ExtractState) : Prop :=
  (s.buffer_detected = true →
    512 ≤ s.buffer_size_estimate ∧ s.buffer_size_estimate ≤ 524288 ∧
    ∃ k, s.buffer_size_estimate = 2 ^ k) ∧
  (s.buffer_detected = false → s.buffer_size_estimate = 0)

/-- Halving a sweep size that is at least 1024 lands on a power of two
between 512 and 524288. -/
lemma sweep_half_pow (n : Nat) (hn : n ∈ sweepSizes) (h : 1024 ≤ n) :
    512 ≤ n / 2 ∧ n / 2 ≤ 524288 ∧ ∃ k, n / 2 = 2 ^ k := by
  have key : ∀ m ∈ sweepSizes, 1024 ≤ m →
      512 ≤ m / 2 ∧ m / 2 ≤ 524288 ∧ ∃ k ∈ Finset.range 20, m / 2 = 2 ^ k := by decide
  obtain ⟨h1, h2, k, _, hk⟩ := key n hn h
  exact ⟨h1, h2, k, hk⟩

/-- The invariant holds at the start of the run. -/
lemma detectInvariant_init : detectInvariant initState :=
  ⟨fun h => Bool.noConfusion h, fun _ => rfl⟩

/-- The scan preserves the detection-state invariant as long as every
aggregate's size is a swept size. -/
lemma scan_invariant (l : List SizeAggregate) : ∀ s : ExtractState,
    detectInvariant s → (∀ a ∈ l, a.message_size ∈ sweepSizes) →
    detectInvariant (l.foldl extractStep s) := by
  induction l with
  | nil => intro s hs _; exact hs
  | cons a t ih =>
    intro s hs hsz
    simp only [List.foldl_cons]
    apply ih
    · by_cases hc : s.buffer_detected = false ∧ jumpCond s.prev_send_time a
      · have hf := extractStep_fire s a hc.1 hc.2
        constructor
        · intro _
          rw [hf.2]
          exact sweep_half_pow a.message_size (hsz a (List.mem_cons_self a t)) hc.2.2.2
        · intro hfd
          rw [hf.1] at hfd
          exact Bool.noConfusion hfd
      · have hk := extractStep_skip s a hc
        constructor
        · intro hd
          rw [hk.2]
          exact hs.1 (hk.1.symm.trans hd)
        · intro hd
          rw [hk.2]
          exact hs.2 (hk.1.symm.trans hd)
    · intro b hb
      exact hsz b (List.mem_cons_of_mem a hb)

/-- C10: at every point of the sweep (i.e. after any prefix `l₁` of the run
over aggregates whose sizes are swept sizes), a set flag comes with a
power-of-two estimate in [512, 524288] and a clear flag with estimate 0; and
once the flag is set, neither the flag nor the estimate changes for the rest
of the run. -/
theorem detect_state_invariant (l l₁ l₂ : List SizeAggregate) (hl : l = l₁ ++ l₂)
    (hsz : ∀ a ∈ l, a.message_size ∈ sweepSizes) :
    detectInvariant (runExtract l₁) ∧
    ((runExtract l₁).buffer_detected = true →
      (runExtract l).buffer_detected = true ∧
      (runExtract l).buffer_size_estimate = (runExtract l₁).buffer_size_estimate) := by
  subst hl
  have hsz₁ : ∀ a ∈ l₁, a.message_size ∈ sweepSizes :=
    fun a ha => hsz a (List.mem_append_left l₂ ha)
  refine ⟨scan_invariant l₁ initState detectInvariant_init hsz₁, fun hd => ?_⟩
  have hrun : runExtract (l₁ ++ l₂) = l₂.foldl extractStep (runExtract l₁) := by
    simp only [runExtract, List.foldl_append]
  rw [hrun]
  exact scan_latched l₂ (runExtract l₁) hd

/-- Witness for C10: the spec's synthetic sequence split after its fourth
aggregate (where detection has just latched 512). -/
theorem detect_state_invariant_w :
    (∀ a ∈ exampleAggs, a.message_size ∈ sweepSizes) ∧
    detectInvariant (runExtract [⟨128, 10, 0, 0⟩, ⟨256, 10, 0, 0⟩,
      ⟨512, 10, 0, 0⟩, ⟨1024, 50, 0, 0⟩]) ∧
    ((runExtract [⟨128, 10, 0, 0⟩, ⟨256, 10, 0, 0⟩, ⟨512, 10, 0, 0⟩,
        ⟨1024, 50, 0, 0⟩]).buffer_detected = true →
      (runExtract exampleAggs).buffer_detected = true ∧
      (runExtract exampleAggs).buffer_size_estimate
        = (runExtract [⟨128, 10, 0, 0⟩, ⟨256, 10, 0, 0⟩, ⟨512, 10, 0, 0⟩,
            ⟨1024, 50, 0, 0⟩]).buffer_size_estimate) := by
  have h := detect_state_invariant exampleAggs
    [⟨128, 10, 0, 0⟩, ⟨256, 10, 0, 0⟩, ⟨512, 10, 0, 0⟩, ⟨1024, 50, 0, 0⟩]
    [⟨2048, 55, 0, 0⟩, ⟨4096, 60, 0, 0⟩] rfl (by decide)
  exact ⟨by decide, h.1, h.2⟩

end PingPong
